import Mathlib

/-!
# Verification of the greenlight middleware pipeline

Shallow embedding of `cmd/api/middleware.go` (rate limiting, bearer-token
authentication, layered authorization, CORS header handling) together with
the limiter configuration defaults of `cmd/api/main.go`, and proofs of the
specified properties.

Conventions: time is measured in seconds as a rational number; Go maps
guarded by the limiter mutex are embedded as association lists keyed by the
client IP string; HTTP response headers are embedded as a list of
(key, value) pairs in insertion order.
-/

namespace Greenlight

/-! ## Identity resolution (authenticate middleware) -/

/-- A user record as far as the middleware observes it.  `data.AnonymousUser`
is the distinguished sentinel with `anonymous = true`; resolved users have
`anonymous = false`. -/
structure User where
  id : Int
  activated : Bool
  anonymous : Bool
  deriving DecidableEq, Repr

/-- Modelled from the spec: `data.AnonymousUser` (package `internal/data`,
not in src/), the distinguished anonymous principal attached when no
credential is presented. -/
def AnonymousUser : User := { id := 0, activated := false, anonymous := true }

/-- Failures of the external user/token lookup contract
(`app.models.Users.GetForToken`): the sentinel `data.ErrRecordNotFound`
versus any other error. -/
inductive LookupErr where
  | recordNotFound
  | other
  deriving DecidableEq, Repr

/-- Modelled from the spec: `data.ValidateTokenPlaintext` (package
`internal/data`, not in src/), the pure plaintext token shape validator run
before any external lookup; it rejects missing tokens and tokens of the
wrong length (the issued credential length is 26 bytes). -/
def ValidateTokenPlaintext (token : String) : Bool :=
  token ≠ "" && token.length = 26

/-- Go's `strings.Split` with a single-character separator, on the
character list of the string: split at every occurrence of `sep`, keeping
empty fields (`strings.Split "Bearer " " "` is `["Bearer", ""]` and
`strings.Split "" " "` is `[""]`). -/
def goSplitChars (sep : Char) : List Char → List (List Char)
  | [] => [[]]
  | c :: cs =>
    match goSplitChars sep cs with
    | [] => [[]]
    | f :: rest => if c = sep then [] :: f :: rest else (c :: f) :: rest

/-- `strings.Split s sep` for a single-character separator, as used on the
`Authorization` header (`strings.Split(authorizationHeader, " ")`). -/
def goSplit (s : String) (sep : Char) : List String :=
  (goSplitChars sep s.toList).map List.asString

/-- Outcome of the authenticate middleware for one request. -/
inductive AuthOutcome where
  /-- the principal was attached to the request context and the next
  handler was invoked -/
  | proceed (u : User)
  /-- `app.invalidCredentialsResponse` was sent -/
  | invalidCredentials
  /-- `app.invalidAuthenticationTokenResponse` was sent -/
  | invalidAuthToken
  /-- `app.serverErrorResponse` was sent -/
  | serverError
  deriving DecidableEq, Repr

/-- The authenticate middleware of `cmd/api/middleware.go`.  `lookup` embeds
the external `app.models.Users.GetForToken(data.ScopeAuthentication, ·)`
collaborator; `header` is the raw `Authorization` request header (the empty
string when the header is absent, as returned by Go's `Header.Get`).  The
second component records whether the external lookup was called. -/
def authenticate (lookup : String → Except LookupErr User) (header : String) :
    AuthOutcome × Bool :=
  if header = "" then
    (.proceed AnonymousUser, false)
  else
    let headerParts := goSplit header ' '
    if headerParts.length ≠ 2 ∨ headerParts.headD "" ≠ "Bearer" then
      (.invalidCredentials, false)
    else
      let token := headerParts.getD 1 ""
      if ¬ ValidateTokenPlaintext token then
        (.invalidAuthToken, false)
      else
        match lookup token with
        | .error .recordNotFound => (.invalidCredentials, true)
        | .error .other => (.serverError, true)
        | .ok u => (.proceed u, true)

/-! ## Layered authorization (requireAuthenticatedUser / requireActivatedUser
/ requirePermission) -/

/-- Outcome of an authorization-gated handler for one request. -/
inductive GateOutcome where
  /-- the wrapped handler ran -/
  | pass
  /-- `app.authenticationRequiredResponse` was sent -/
  | authRequired
  /-- `app.inactiveAccountResponse` was sent -/
  | inactiveAccount
  /-- `app.serverErrorResponse` was sent -/
  | serverError
  /-- `app.notPermittedResponse` was sent -/
  | notPermitted
  deriving DecidableEq, Repr

/-- A handler as the authorization middleware sees it: given the principal
from the request context it produces an outcome; the `Bool` component of the
results below records whether the external permission lookup was called. -/
abbrev Handler := User → GateOutcome

/-- `app.requireAuthenticatedUser`: reject anonymous principals, otherwise
run the wrapped handler. -/
def requireAuthenticatedUser (next : User → GateOutcome × Bool) (user : User) :
    GateOutcome × Bool :=
  if user.anonymous then (.authRequired, false) else next user

/-- `app.requireActivatedUser`: reject non-activated principals, wrapped in
`requireAuthenticatedUser`. -/
def requireActivatedUser (next : User → GateOutcome × Bool) (user : User) :
    GateOutcome × Bool :=
  requireAuthenticatedUser
    (fun u => if ¬ u.activated then (.inactiveAccount, false) else next u) user

/-- `app.requirePermission`: fetch the principal's permission set through
the external `app.models.Permissions.GetAllForUser` collaborator (embedded
as the `getAllForUser` parameter), test membership of `code`
(`permissions.Include`, an exact-match membership test), and run the wrapped
handler on success; the whole check is wrapped in `requireActivatedUser`. -/
def requirePermission (code : String)
    (getAllForUser : Int → Except Unit (List String))
    (next : Handler) (user : User) : GateOutcome × Bool :=
  requireActivatedUser
    (fun u =>
      match getAllForUser u.id with
      | .error _ => (.serverError, true)
      | .ok permissions =>
        if ¬ permissions.contains code then (.notPermitted, true)
        else (next u, true))
    user

/-! ## Per-client rate limiting (rateLimit middleware) -/

/-- The limiter section of the `config` struct of `cmd/api/main.go`
(`cfg.limiter`): requests per second, maximum burst, enable flag. -/
structure LimiterConfig where
  rps : ℚ
  burst : ℤ
  enabled : Bool
  deriving DecidableEq, Repr

/-- The flag defaults of `cmd/api/main.go`: `-limiter-rps` defaults to 2,
`-limiter-burst` to 4, `-limiter-enabled` to true. -/
def defaultLimiterConfig : LimiterConfig := { rps := 2, burst := 4, enabled := true }

/-- Modelled from the spec: the token-bucket state of a
`golang.org/x/time/rate` `rate.Limiter` (external library, not in src/):
current token count and the timestamp of the last bucket update. -/
structure RateLimiter where
  tokens : ℚ
  lastUpdate : ℚ
  deriving DecidableEq, Repr

/-- Modelled from the spec: `rate.NewLimiter` as used at its creation site
in `rateLimit` — a bucket holds up to `burst` tokens and a fresh client's
bucket is full, so its first `burst` immediate admissions can succeed. -/
def newLimiter (cfg : LimiterConfig) (now : ℚ) : RateLimiter :=
  { tokens := (cfg.burst : ℚ), lastUpdate := now }

/-- Modelled from the spec: `rate.Limiter.Allow` — replenish tokens for the
elapsed time at `rps` per second, capped at `burst`, then admit exactly when
at least one token is available, consuming it; a denied call leaves the
bucket unchanged. -/
def limiterAllow (cfg : LimiterConfig) (now : ℚ) (lim : RateLimiter) :
    Bool × RateLimiter :=
  let tokens := min (cfg.burst : ℚ) (lim.tokens + cfg.rps * max 0 (now - lim.lastUpdate))
  if 1 ≤ tokens then (true, { tokens := tokens - 1, lastUpdate := now })
  else (false, lim)

/-- The per-client `client` struct of `rateLimit`: a rate limiter and the
last-seen timestamp. -/
structure Client where
  limiter : RateLimiter
  lastSeen : ℚ
  deriving DecidableEq, Repr

/-- The `clients` map of `rateLimit`, embedded as an association list from
client IP to client entry. -/
abbrev Clients := List (String × Client)

/-- Go map indexing `clients[ip]`: the entry bound to `ip`, if any. -/
def lookupClient (ip : String) : Clients → Option Client
  | [] => none
  | (k, v) :: rest => if k = ip then some v else lookupClient ip rest

/-- Replace the entry bound to `ip` (the in-place mutation of
`clients[ip]` through the stored pointer). -/
def updateClient (ip : String) (e : Client) : Clients → Clients
  | [] => []
  | (k, v) :: rest =>
    if k = ip then (k, e) :: rest else (k, v) :: updateClient ip e rest

/-- One admission check of the `rateLimit` middleware
(`cmd/api/middleware.go` lines 74–108) for the request of client `ip`
arriving at time `now`: when limiting is enabled, look up or create the
client's entry, refresh its `lastSeen` timestamp, and consume a token from
its limiter; the returned `Bool` is `true` when the request proceeds to the
next handler and `false` when `rateLimitExceededResponse` is sent.  When
limiting is disabled every request proceeds with the map untouched. -/
def rateLimitStep (cfg : LimiterConfig) (now : ℚ) (ip : String)
    (clients : Clients) : Bool × Clients :=
  if cfg.enabled then
    match lookupClient ip clients with
    | none =>
      let (ok, lim) := limiterAllow cfg now (newLimiter cfg now)
      (ok, (ip, { limiter := lim, lastSeen := now }) :: clients)
    | some c =>
      let (ok, lim) := limiterAllow cfg now c.limiter
      (ok, updateClient ip { limiter := lim, lastSeen := now } clients)
  else
    (true, clients)

/-- A back-to-back sequence of `n` admission checks from the same client,
all arriving at the same instant `now`: the list of per-request decisions
and the final map. -/
def runRequests (cfg : LimiterConfig) (now : ℚ) (ip : String) :
    ℕ → Clients → List Bool × Clients
  | 0, clients => ([], clients)
  | n + 1, clients =>
    let (ok, clients') := rateLimitStep cfg now ip clients
    let (oks, clients'') := runRequests cfg now ip n clients'
    (ok :: oks, clients'')

/-- One pass of the background cleanup goroutine of `rateLimit`
(`cmd/api/middleware.go` lines 53–72), executing at time `now`: delete
every entry whose `lastSeen` lies more than three minutes in the past. -/
def sweep (now : ℚ) (clients : Clients) : Clients :=
  clients.filter (fun c => ¬ (now - c.2.lastSeen > 3 * 60))

/-! ## CORS handling (enableCORS middleware) -/

/-- Response headers in insertion order, as manipulated through Go's
`http.Header`: `Add` appends a (key, value) pair, `Set` replaces every
value stored under the key with the single given one. -/
abbrev Headers := List (String × String)

/-- `http.Header.Add`. -/
def headerAdd (h : Headers) (k v : String) : Headers := h ++ [(k, v)]

/-- `http.Header.Set`. -/
def headerSet (h : Headers) (k v : String) : Headers :=
  h.filter (fun p => p.1 ≠ k) ++ [(k, v)]

/-- The request fields read by `enableCORS`: the `Origin` header, the HTTP
method, and the `Access-Control-Request-Method` header (Go's `Header.Get`
returns `""` for an absent header). -/
structure CorsRequest where
  origin : String
  method : String
  acrMethod : String
  deriving DecidableEq, Repr

/-- The `enableCORS` middleware of `cmd/api/middleware.go` (lines 242–281)
acting on the response headers `h`: add `Vary: Origin` twice (the source
adds `"Origin"` a second time where its comment announces
`Access-Control-Request-Method`), then, when an `Origin` request header is
present and equals the first matching trusted origin, set
`Access-Control-Allow-Origin` and, for a preflight request (method OPTIONS
with an `Access-Control-Request-Method` header), set the preflight headers
and terminate with `200 OK`.  The returned `Bool` is `true` when the
middleware terminated the request as a preflight response and `false` when
control passed to the next handler. -/
def enableCORS (trustedOrigins : List String) (r : CorsRequest) (h : Headers) :
    Headers × Bool :=
  let h := headerAdd h "Vary" "Origin"
  let h := headerAdd h "Vary" "Origin"
  if r.origin ≠ "" then
    match trustedOrigins.find? (fun t => r.origin = t) with
    | some _ =>
      let h := headerSet h "Access-Control-Allow-Origin" r.origin
      if r.method = "OPTIONS" ∧ r.acrMethod ≠ "" then
        let h := headerSet h "Access-Control-Allow-Methods" "OPTIONS, PUT, PATCH, DELETE"
        let h := headerSet h "Access-Control-Allow-Headers" "Authorization, Content-Type"
        (h, true)
      else (h, false)
    | none => (h, false)
  else (h, false)

/-! ## Two concurrent admission checks for one key (the mutex discipline of
rateLimit)

The critical section of `rateLimit` (lines 81–104 of
`cmd/api/middleware.go`) is split into its atomic micro-operations on the
shared `clients` map: acquire `mu`; insert a fresh entry if the key is
absent; refresh `lastSeen`; read the limiter's replenished token count;
decide and write back the consumed count; release `mu`.  Two threads running
this program for the same key may interleave arbitrarily subject only to
the mutex: a thread at the acquire step is blocked while the other holds
the lock. -/

/-- Program counter values of one admission thread.
0 = about to `mu.Lock()`; 1 = about to run the found-check/insert;
2 = about to refresh `lastSeen`; 3 = about to read the replenished token
count inside `Allow()`; 4 = about to decide and write back;
5 = about to `mu.Unlock()`; 6 = finished. -/
structure Thread where
  pc : ℕ
  /-- the token count read at step 3, local to the thread -/
  tokensRead : ℚ
  /-- the admission decision, recorded at step 4 -/
  result : Option Bool
  deriving DecidableEq, Repr

/-- Shared state of the two-thread admission experiment: who holds `mu`
(`none` when free), the shared `clients` map, and the two threads. -/
structure Sys where
  lock : Option Bool
  clients : Clients
  t0 : Thread
  t1 : Thread
  deriving DecidableEq, Repr

/-- The thread selected by `i`. -/
def Sys.thread (s : Sys) (i : Bool) : Thread := if i then s.t1 else s.t0

/-- Replace the thread selected by `i`. -/
def Sys.setThread (s : Sys) (i : Bool) (t : Thread) : Sys :=
  if i then { s with t1 := t } else { s with t0 := t }

/-- One micro-step of thread `i`'s admission check for key `ip` at time
`now` under configuration `cfg`.  A blocked or finished thread leaves the
state unchanged. -/
def microStep (cfg : LimiterConfig) (now : ℚ) (ip : String) (s : Sys)
    (i : Bool) : Sys :=
  let t := s.thread i
  if t.pc = 0 then
    match s.lock with
    | none => { s.setThread i { t with pc := 1 } with lock := some i }
    | some _ => s
  else if t.pc = 1 then
    let clients :=
      match lookupClient ip s.clients with
      | none => (ip, { limiter := newLimiter cfg now, lastSeen := 0 }) :: s.clients
      | some _ => s.clients
    { s.setThread i { t with pc := 2 } with clients := clients }
  else if t.pc = 2 then
    let clients :=
      match lookupClient ip s.clients with
      | none => s.clients
      | some c => updateClient ip { c with lastSeen := now } s.clients
    { s.setThread i { t with pc := 3 } with clients := clients }
  else if t.pc = 3 then
    let tokens :=
      match lookupClient ip s.clients with
      | none => 0
      | some c =>
        min (cfg.burst : ℚ)
          (c.limiter.tokens + cfg.rps * max 0 (now - c.limiter.lastUpdate))
    s.setThread i { t with pc := 4, tokensRead := tokens }
  else if t.pc = 4 then
    if 1 ≤ t.tokensRead then
      let clients :=
        match lookupClient ip s.clients with
        | none => s.clients
        | some c =>
          updateClient ip
            { c with limiter := { tokens := t.tokensRead - 1, lastUpdate := now } }
            s.clients
      { s.setThread i { t with pc := 5, result := some true } with clients := clients }
    else
      s.setThread i { t with pc := 5, result := some false }
  else if t.pc = 5 then
    { s.setThread i { t with pc := 6 } with lock := none }
  else s

/-- Run a schedule: at each scheduling decision the named thread takes one
micro-step (a no-op when blocked or finished). -/
def runSched (cfg : LimiterConfig) (now : ℚ) (ip : String) :
    List Bool → Sys → Sys
  | [], s => s
  | i :: rest, s => runSched cfg now ip rest (microStep cfg now ip s i)

/-- The initial state of the experiment: the lock is free, both threads are
about to enter, and the contended client already has an entry holding
exactly one token, its bucket clock already at `now`. -/
def initSys (ip : String) (now lastSeen : ℚ) : Sys :=
  { lock := none
    clients := [(ip, { limiter := { tokens := 1, lastUpdate := now }, lastSeen := lastSeen })]
    t0 := { pc := 0, tokensRead := 0, result := none }
    t1 := { pc := 0, tokensRead := 0, result := none } }

/-! ## Theorems: identity resolution -/

/-- C6: a request with no `Authorization` header has the anonymous
principal attached and passes to the next handler, for every possible
lookup collaborator and with no lookup performed — no rejection branch is
reached. -/
theorem authenticate_no_header_anonymous
    (lookup : String → Except LookupErr User) :
    authenticate lookup "" = (.proceed AnonymousUser, false) := rfl

/-- C9: the header `"Bearer "` splits into exactly two parts with an empty
token, so the shape check passes; the empty token fails the plaintext
format validator, and the request is rejected with the invalid-token
outcome (`invalidAuthenticationTokenResponse`), which is distinct from the
invalid-credentials outcome used for malformed headers; no lookup is
made. -/
theorem authenticate_empty_bearer_token
    (lookup : String → Except LookupErr User) :
    goSplit "Bearer " ' ' = ["Bearer", ""] ∧
    ValidateTokenPlaintext "" = false ∧
    authenticate lookup "Bearer " = (.invalidAuthToken, false) ∧
    AuthOutcome.invalidAuthToken ≠ AuthOutcome.invalidCredentials :=
  ⟨rfl, rfl, rfl, by decide⟩

/-- C4 counterexample: for the header `"Bearer abc"` (whose token fails the
format validator), authenticate rejects with the invalid-token outcome,
not the invalid-credentials outcome the claim names; no lookup is made even
when the lookup would succeed. -/
theorem authenticate_invalid_format_counterexample :
    authenticate (fun _ => .ok { id := 1, activated := true, anonymous := false })
        "Bearer abc" = (.invalidAuthToken, false) ∧
    AuthOutcome.invalidAuthToken ≠ AuthOutcome.invalidCredentials :=
  ⟨rfl, by decide⟩

/-- C4 amended: for every header of the form `"Bearer <token>"` (exactly
two space-separated parts, first literally `"Bearer"`) whose token fails
the plaintext format validator, authenticate rejects with the invalid-token
outcome (`invalidAuthenticationTokenResponse`), and no call to the
external user/token lookup is made. -/
theorem authenticate_invalid_format_rejects_without_lookup
    (lookup : String → Except LookupErr User) (header token : String)
    (hsplit : goSplit header ' ' = ["Bearer", token])
    (hvalid : ValidateTokenPlaintext token = false) :
    authenticate lookup header = (.invalidAuthToken, false) := by
  have hne : header ≠ "" := by
    intro h
    rw [h] at hsplit
    simp [goSplit, goSplitChars] at hsplit
  simp only [authenticate, hne, if_false, hsplit]
  simp [hvalid]

/-- C4 witness: the amended theorem applied to the header `"Bearer abc"`. -/
theorem authenticate_invalid_format_witness :
    authenticate (fun _ => .error .recordNotFound) "Bearer abc"
      = (.invalidAuthToken, false) :=
  authenticate_invalid_format_rejects_without_lookup
    (fun _ => .error .recordNotFound) "Bearer abc" "abc" rfl rfl

/-- C5: for a well-shaped `"Bearer <token>"` header whose token passes the
format validator, a not-found answer from the external lookup yields the
invalid-credentials outcome (the same outcome as a malformed header, not an
internal error), and any other lookup failure yields the internal-error
outcome. -/
theorem authenticate_lookup_failure_outcomes
    (lookup : String → Except LookupErr User) (header token : String)
    (hsplit : goSplit header ' ' = ["Bearer", token])
    (hvalid : ValidateTokenPlaintext token = true) :
    (lookup token = .error .recordNotFound →
      authenticate lookup header = (.invalidCredentials, true)) ∧
    (lookup token = .error .other →
      authenticate lookup header = (.serverError, true)) := by
  have hne : header ≠ "" := by
    intro h
    rw [h] at hsplit
    simp [goSplit, goSplitChars] at hsplit
  constructor <;> intro hlk <;>
    simp [authenticate, hne, hsplit, hvalid, hlk]

/-- C5 witness: the theorem applied to a validly-shaped 26-character token,
once for a not-found lookup and once for a failing lookup. -/
theorem authenticate_lookup_failure_witness :
    authenticate (fun _ => .error .recordNotFound)
        "Bearer ABCDEFGHIJKLMNOPQRSTUVWXYZ" = (.invalidCredentials, true) ∧
    authenticate (fun _ => .error .other)
        "Bearer ABCDEFGHIJKLMNOPQRSTUVWXYZ" = (.serverError, true) :=
  ⟨(authenticate_lookup_failure_outcomes (fun _ => .error .recordNotFound)
      "Bearer ABCDEFGHIJKLMNOPQRSTUVWXYZ" "ABCDEFGHIJKLMNOPQRSTUVWXYZ" rfl rfl).1 rfl,
   (authenticate_lookup_failure_outcomes (fun _ => .error .other)
      "Bearer ABCDEFGHIJKLMNOPQRSTUVWXYZ" "ABCDEFGHIJKLMNOPQRSTUVWXYZ" rfl rfl).2 rfl⟩

/-! ## Theorems: layered authorization -/

/-- C3: `requirePermission code` runs its checks in the fixed order
authenticated → activated → permitted.  An anonymous principal yields the
authentication-required outcome and an authenticated but non-activated
principal the inactive-account outcome, in both cases with no permission
lookup performed; for an activated authenticated principal a lookup failure
yields the internal-error outcome, absence of `code` from the returned
permission set the not-permitted outcome, and membership of `code` passes
the request to the handler on the unchanged principal. -/
theorem requirePermission_check_order (code : String)
    (getAllForUser : Int → Except Unit (List String))
    (next : Handler) (user : User) :
    (user.anonymous = true →
      requirePermission code getAllForUser next user = (.authRequired, false)) ∧
    (user.anonymous = false → user.activated = false →
      requirePermission code getAllForUser next user = (.inactiveAccount, false)) ∧
    (user.anonymous = false → user.activated = true →
      getAllForUser user.id = .error () →
      requirePermission code getAllForUser next user = (.serverError, true)) ∧
    (∀ permissions, user.anonymous = false → user.activated = true →
      getAllForUser user.id = .ok permissions → permissions.contains code = false →
      requirePermission code getAllForUser next user = (.notPermitted, true)) ∧
    (∀ permissions, user.anonymous = false → user.activated = true →
      getAllForUser user.id = .ok permissions → permissions.contains code = true →
      requirePermission code getAllForUser next user = (next user, true)) := by
  refine ⟨fun ha => ?_, fun ha hact => ?_, fun ha hact hlk => ?_,
    fun permissions ha hact hlk hmem => ?_, fun permissions ha hact hlk hmem => ?_⟩
  · simp [requirePermission, requireActivatedUser, requireAuthenticatedUser, ha]
  · simp [requirePermission, requireActivatedUser, requireAuthenticatedUser, ha, hact]
  · simp [requirePermission, requireActivatedUser, requireAuthenticatedUser, ha, hact, hlk]
  · simp only [requirePermission, requireActivatedUser, requireAuthenticatedUser,
      ha, hact, hlk, hmem]
    simp
  · simp only [requirePermission, requireActivatedUser, requireAuthenticatedUser,
      ha, hact, hlk, hmem]
    simp

/-- C3 witness: the five branches of the theorem at concrete principals, a
concrete permission table granting `"movies:write"` to user 1 only, and a
concrete handler. -/
theorem requirePermission_check_order_witness :
    requirePermission "movies:write"
        (fun uid => if uid = 1 then .ok ["movies:read", "movies:write"]
          else if uid = 2 then .ok ["movies:read"] else .error ())
        (fun _ => .pass) { id := 1, activated := false, anonymous := true }
      = (.authRequired, false) ∧
    requirePermission "movies:write"
        (fun uid => if uid = 1 then .ok ["movies:read", "movies:write"]
          else if uid = 2 then .ok ["movies:read"] else .error ())
        (fun _ => .pass) { id := 1, activated := false, anonymous := false }
      = (.inactiveAccount, false) ∧
    requirePermission "movies:write"
        (fun uid => if uid = 1 then .ok ["movies:read", "movies:write"]
          else if uid = 2 then .ok ["movies:read"] else .error ())
        (fun _ => .pass) { id := 3, activated := true, anonymous := false }
      = (.serverError, true) ∧
    requirePermission "movies:write"
        (fun uid => if uid = 1 then .ok ["movies:read", "movies:write"]
          else if uid = 2 then .ok ["movies:read"] else .error ())
        (fun _ => .pass) { id := 2, activated := true, anonymous := false }
      = (.notPermitted, true) ∧
    requirePermission "movies:write"
        (fun uid => if uid = 1 then .ok ["movies:read", "movies:write"]
          else if uid = 2 then .ok ["movies:read"] else .error ())
        (fun _ => .pass) { id := 1, activated := true, anonymous := false }
      = (.pass, true) :=
  ⟨(requirePermission_check_order _ _ _ _).1 rfl,
   (requirePermission_check_order _ _ _ _).2.1 rfl rfl,
   (requirePermission_check_order _ _ _ _).2.2.1 rfl rfl rfl,
   (requirePermission_check_order _ _ _ _).2.2.2.1 ["movies:read"] rfl rfl rfl (by decide),
   (requirePermission_check_order _ _ _ _).2.2.2.2 ["movies:read", "movies:write"]
     rfl rfl rfl (by decide)⟩

/-! ## Theorems: CORS headers -/

/-- The `Vary: Origin` response-header pair. -/
def isVaryOrigin (p : String × String) : Bool :=
  p.1 == "Vary" && p.2 == "Origin"

/-- A `Vary: Access-Control-Request-Method` response-header pair. -/
def isVaryACRM (p : String × String) : Bool :=
  p.1 == "Vary" && p.2 == "Access-Control-Request-Method"

/-- Replacing the values of a non-`Vary` key leaves the count of any
`Vary` header pair unchanged. -/
theorem countP_headerSet (l : Headers) (k v : String)
    (P : String × String → Bool)
    (hkv : P (k, v) = false) (hP : ∀ p, P p = true → p.1 ≠ k) :
    (headerSet l k v).countP P = l.countP P := by
  rw [headerSet, List.countP_append, List.countP_filter]
  have hand : ∀ p : String × String, (P p && decide (p.1 ≠ k)) = P p := by
    intro p
    cases hp : P p
    · simp
    · simp [hP p hp]
  rw [List.countP_congr (fun p _ => by rw [hand p])]
  simp [List.countP_cons, hkv]

/-- C10: on every request — whatever the trusted-origin list, the request's
`Origin` header, its method, and the headers already present — `enableCORS`
adds exactly two `Vary: Origin` pairs to the response headers and never adds
a `Vary: Access-Control-Request-Method` pair. -/
theorem enableCORS_vary_headers (trustedOrigins : List String)
    (r : CorsRequest) (h : Headers) :
    ((enableCORS trustedOrigins r h).1.countP isVaryOrigin
        = h.countP isVaryOrigin + 2) ∧
    ((enableCORS trustedOrigins r h).1.countP isVaryACRM
        = h.countP isVaryACRM) := by
  have hO : ∀ p, isVaryOrigin p = true → p.1 = "Vary" := by
    intro p hp
    rcases p with ⟨a, b⟩
    simp [isVaryOrigin] at hp
    exact hp.1
  have hA : ∀ p, isVaryACRM p = true → p.1 = "Vary" := by
    intro p hp
    rcases p with ⟨a, b⟩
    simp [isVaryACRM] at hp
    exact hp.1
  have hsetO : ∀ (l : Headers) (k v : String), k ≠ "Vary" →
      (headerSet l k v).countP isVaryOrigin = l.countP isVaryOrigin := by
    intro l k v hk
    refine countP_headerSet l k v _ ?_ (fun p hp => by rw [hO p hp]; exact fun e => hk e.symm)
    simp [isVaryOrigin, hk]
  have hsetA : ∀ (l : Headers) (k v : String), k ≠ "Vary" →
      (headerSet l k v).countP isVaryACRM = l.countP isVaryACRM := by
    intro l k v hk
    refine countP_headerSet l k v _ ?_ (fun p hp => by rw [hA p hp]; exact fun e => hk e.symm)
    simp [isVaryACRM, hk]
  have hadd : ∀ l : Headers,
      (headerAdd (headerAdd l "Vary" "Origin") "Vary" "Origin").countP isVaryOrigin
          = l.countP isVaryOrigin + 2 ∧
      (headerAdd (headerAdd l "Vary" "Origin") "Vary" "Origin").countP isVaryACRM
          = l.countP isVaryACRM := by
    intro l
    constructor <;>
      simp [headerAdd, List.countP_append, List.countP_cons, isVaryOrigin, isVaryACRM]
  unfold enableCORS
  split
  · rcases hfind : trustedOrigins.find? (fun t => r.origin = t) with _ | t
    all_goals simp only [hfind]
    · exact hadd h
    · split
      · refine ⟨?_, ?_⟩ <;> dsimp only
        · rw [hsetO _ _ _ (by decide), hsetO _ _ _ (by decide), hsetO _ _ _ (by decide),
            (hadd h).1]
        · rw [hsetA _ _ _ (by decide), hsetA _ _ _ (by decide), hsetA _ _ _ (by decide),
            (hadd h).2]
      · refine ⟨?_, ?_⟩ <;> dsimp only
        · rw [hsetO _ _ _ (by decide), (hadd h).1]
        · rw [hsetA _ _ _ (by decide), (hadd h).2]
  · exact hadd h

/-! ## Theorems: rate limiting -/

/-- Updating the entry of a key that is present makes the updated entry the
one found. -/
theorem lookupClient_updateClient_self (ip : String) (e : Client) :
    ∀ (clients : Clients) (c : Client),
      lookupClient ip clients = some c →
      lookupClient ip (updateClient ip e clients) = some e := by
  intro clients
  induction clients with
  | nil => intro c hc; simp [lookupClient] at hc
  | cons kv rest ih =>
    intro c hc
    rcases kv with ⟨k, v⟩
    by_cases hk : k = ip
    · simp [lookupClient, updateClient, hk]
    · simp only [lookupClient, updateClient, hk, if_false] at hc ⊢
      exact ih c hc

/-- An admission check at the very instant of the bucket's last update
replenishes nothing: it admits exactly when a full token is present. -/
theorem limiterAllow_no_elapse (cfg : LimiterConfig) (now t : ℚ)
    (ht : t ≤ (cfg.burst : ℚ)) :
    limiterAllow cfg now ⟨t, now⟩ =
      if 1 ≤ t then (true, ⟨t - 1, now⟩) else (false, ⟨t, now⟩) := by
  unfold limiterAllow
  rw [sub_self, max_self, mul_zero, add_zero, min_eq_right ht]

/-- Unfolding one admission from a back-to-back sequence. -/
theorem runRequests_succ (cfg : LimiterConfig) (now : ℚ) (ip : String)
    (n : ℕ) (clients : Clients) :
    runRequests cfg now ip (n + 1) clients =
      ((rateLimitStep cfg now ip clients).1 ::
          (runRequests cfg now ip n (rateLimitStep cfg now ip clients).2).1,
        (runRequests cfg now ip n (rateLimitStep cfg now ip clients).2).2) := rfl

/-- Draining a bucket holding `t ∈ [k, k+1)` tokens with back-to-back
requests: the first `k` are admitted and the `k+1`-th is denied. -/
theorem runRequests_drain (cfg : LimiterConfig) (now : ℚ) (ip : String)
    (he : cfg.enabled = true) (k : ℕ) :
    ∀ (clients : Clients) (t ls : ℚ),
      lookupClient ip clients = some ⟨⟨t, now⟩, ls⟩ →
      (k : ℚ) ≤ t → t < (k : ℚ) + 1 → t ≤ (cfg.burst : ℚ) →
      (runRequests cfg now ip (k + 1) clients).1
        = List.replicate k true ++ [false] := by
  induction k with
  | zero =>
    intro clients t ls hc hk0 hk1 hb
    have hlt : ¬ (1 : ℚ) ≤ t := by push_cast at hk1; linarith
    have hstep : rateLimitStep cfg now ip clients
        = (false, updateClient ip ⟨⟨t, now⟩, now⟩ clients) := by
      simp only [rateLimitStep, he, if_true, hc,
        limiterAllow_no_elapse cfg now t hb, hlt, if_false]
    rw [runRequests_succ, hstep]
    simp [runRequests]
  | succ k ih =>
    intro clients t ls hc hk0 hk1 hb
    have h1 : (1 : ℚ) ≤ t := by
      push_cast at hk0
      linarith
    have hstep : rateLimitStep cfg now ip clients
        = (true, updateClient ip ⟨⟨t - 1, now⟩, now⟩ clients) := by
      simp only [rateLimitStep, he, if_true, hc,
        limiterAllow_no_elapse cfg now t hb, h1, if_true]
    have hc' := lookupClient_updateClient_self ip
      ⟨⟨t - 1, now⟩, now⟩ clients ⟨⟨t, now⟩, ls⟩ hc
    have hrec := ih (updateClient ip ⟨⟨t - 1, now⟩, now⟩ clients) (t - 1) now hc'
      (by push_cast at hk0 ⊢; linarith) (by push_cast at hk1 ⊢; linarith)
      (by linarith)
    rw [runRequests_succ, hstep]
    simp [hrec, List.replicate_succ]

/-- C1: with rate limiting enabled, a client not yet known to the registry
that sends `burst + 1` back-to-back requests (no elapsed time) has its
first `burst` requests admitted and the last one rejected with the
rate-limit-exceeded outcome.  In particular with the configured defaults
(rate 2/sec, burst 4, enabled) the first 4 of 5 succeed and the 5th is
denied. -/
theorem rateLimit_admits_burst_then_denies (cfg : LimiterConfig) (now : ℚ)
    (ip : String) (clients : Clients)
    (he : cfg.enabled = true) (habs : lookupClient ip clients = none)
    (hb : 0 ≤ cfg.burst) :
    (runRequests cfg now ip (cfg.burst.toNat + 1) clients).1
      = List.replicate cfg.burst.toNat true ++ [false] := by
  have hcast : ((cfg.burst.toNat : ℕ) : ℚ) = (cfg.burst : ℚ) := by
    exact_mod_cast congrArg (fun z : ℤ => (z : ℚ)) (Int.toNat_of_nonneg hb)
  rcases hn : cfg.burst.toNat with _ | n
  · have hb0 : (cfg.burst : ℚ) = 0 := by rw [← hcast, hn]; norm_num
    have hlt : ¬ (1 : ℚ) ≤ (cfg.burst : ℚ) := by rw [hb0]; norm_num
    have hstep : rateLimitStep cfg now ip clients
        = (false, (ip, ⟨⟨(cfg.burst : ℚ), now⟩, now⟩) :: clients) := by
      simp only [rateLimitStep, he, if_true, habs, newLimiter,
        limiterAllow_no_elapse cfg now _ le_rfl, hlt, if_false]
    rw [runRequests_succ, hstep]
    simp [runRequests]
  · have hbq : (cfg.burst : ℚ) = (n : ℚ) + 1 := by
      rw [← hcast, hn]
      push_cast
      ring
    have h1 : (1 : ℚ) ≤ (cfg.burst : ℚ) := by
      have : (0 : ℚ) ≤ (n : ℚ) := Nat.cast_nonneg n
      rw [hbq]
      linarith
    have hstep : rateLimitStep cfg now ip clients
        = (true, (ip, ⟨⟨(cfg.burst : ℚ) - 1, now⟩, now⟩) :: clients) := by
      simp only [rateLimitStep, he, if_true, habs, newLimiter,
        limiterAllow_no_elapse cfg now _ le_rfl, h1, if_true]
    have hc' : lookupClient ip
        ((ip, ⟨⟨(cfg.burst : ℚ) - 1, now⟩, now⟩) :: clients)
          = some ⟨⟨(cfg.burst : ℚ) - 1, now⟩, now⟩ := by
      simp [lookupClient]
    have hrec := runRequests_drain cfg now ip he n
      ((ip, ⟨⟨(cfg.burst : ℚ) - 1, now⟩, now⟩) :: clients)
      ((cfg.burst : ℚ) - 1) now hc'
      (by rw [hbq]; linarith)
      (by rw [hbq]; linarith)
      (by linarith)
    rw [runRequests_succ, hstep]
    simp [hrec, List.replicate_succ]

/-- C1 witness: the defaults (rate 2/sec, burst 4, enabled) at the client
`"10.0.0.1"`: of 5 back-to-back requests the first 4 are admitted and the
5th is denied. -/
theorem rateLimit_admits_burst_then_denies_witness :
    (runRequests defaultLimiterConfig 0 "10.0.0.1" 5 []).1
      = [true, true, true, true, false] := by
  have h := rateLimit_admits_burst_then_denies defaultLimiterConfig 0 "10.0.0.1" []
    rfl rfl (by decide)
  exact h.trans (by decide)

/-! ## Theorems: the eviction sweep -/

/-- A key bound nowhere in a list is bound nowhere in any sublist obtained
by filtering. -/
theorem lookupClient_filter_absent (ip : String) (p : String × Client → Bool) :
    ∀ l : Clients, ip ∉ l.map Prod.fst →
      lookupClient ip (l.filter p) = none := by
  intro l
  induction l with
  | nil => intro _; simp [lookupClient]
  | cons kv rest ih =>
    intro hip
    rcases kv with ⟨k, v⟩
    simp only [List.map_cons, List.mem_cons] at hip
    push_neg at hip
    rcases hip with ⟨hk, hrest⟩
    by_cases hkeep : p (k, v)
    · simp only [List.filter_cons_of_pos hkeep, lookupClient,
        (Ne.symm hk : ¬ k = ip), if_false]
      exact ih hrest
    · rw [List.filter_cons_of_neg (by simpa using hkeep)]
      exact ih hrest

/-- The first binding of a key survives a filter that keeps it. -/
theorem lookupClient_filter_kept (ip : String) (e : Client)
    (p : String × Client → Bool) :
    ∀ l : Clients, lookupClient ip l = some e → p (ip, e) = true →
      lookupClient ip (l.filter p) = some e := by
  intro l
  induction l with
  | nil => intro hc; simp [lookupClient] at hc
  | cons kv rest ih =>
    intro hc hp
    rcases kv with ⟨k, v⟩
    by_cases hk : k = ip
    · subst hk
      simp only [lookupClient, if_pos] at hc
      · rw [Option.some.injEq] at hc
        subst hc
        rw [List.filter_cons_of_pos hp]
        simp [lookupClient]
    · simp only [lookupClient, hk, if_false] at hc
      by_cases hkeep : p (k, v)
      · rw [List.filter_cons_of_pos hkeep]
        simp only [lookupClient, hk, if_false]
        exact ih hc hp
      · rw [List.filter_cons_of_neg (by simpa using hkeep)]
        exact ih hc hp

/-- C7: when the periodic sweep executes at time `now` over a registry with
distinct keys, every entry whose `lastSeen` lies more than the three-minute
idle threshold in the past is absent from the registry afterwards, and every
entry touched within the threshold survives unchanged. -/
theorem sweep_evicts_stale_keeps_fresh (now : ℚ) (clients : Clients)
    (ip : String) (e : Client)
    (hnd : (clients.map Prod.fst).Nodup)
    (hc : lookupClient ip clients = some e) :
    (now - e.lastSeen > 3 * 60 →
      lookupClient ip (sweep now clients) = none) ∧
    (now - e.lastSeen ≤ 3 * 60 →
      lookupClient ip (sweep now clients) = some e) := by
  constructor
  · intro hstale
    induction clients with
    | nil => simp [lookupClient] at hc
    | cons kv rest ih =>
      rcases kv with ⟨k, v⟩
      simp only [List.map_cons, List.nodup_cons] at hnd
      by_cases hk : k = ip
      · subst hk
        simp only [lookupClient, if_pos] at hc
        rw [Option.some.injEq] at hc
        subst hc
        rw [sweep, List.filter_cons_of_neg
          (by simp only [decide_eq_true_eq, Decidable.not_not]; exact hstale)]
        exact lookupClient_filter_absent k _ rest hnd.1
      · simp only [lookupClient, hk, if_false] at hc
        rw [sweep]
        by_cases hkeep : now - v.lastSeen > 3 * 60
        · rw [List.filter_cons_of_neg
            (by simp only [decide_eq_true_eq, Decidable.not_not]; exact hkeep)]
          exact ih hnd.2 hc
        · rw [List.filter_cons_of_pos (by simpa using hkeep)]
          simp only [lookupClient, hk, if_false]
          exact ih hnd.2 hc
  · intro hfresh
    refine lookupClient_filter_kept ip e _ clients hc ?_
    simp only [decide_eq_true_eq]
    exact not_lt.mpr hfresh

/-- C7 witness: at time 200 the sweep evicts the entry last seen at time 0
(200 seconds idle, more than 180) and keeps the one last seen at
time 100. -/
theorem sweep_evicts_stale_keeps_fresh_witness :
    lookupClient "1.1.1.1"
        (sweep 200 [("1.1.1.1", ⟨⟨1, 0⟩, 0⟩), ("2.2.2.2", ⟨⟨1, 0⟩, 100⟩)])
      = none ∧
    lookupClient "2.2.2.2"
        (sweep 200 [("1.1.1.1", ⟨⟨1, 0⟩, 0⟩), ("2.2.2.2", ⟨⟨1, 0⟩, 100⟩)])
      = some ⟨⟨1, 0⟩, 100⟩ :=
  ⟨(sweep_evicts_stale_keeps_fresh 200
      [("1.1.1.1", ⟨⟨1, 0⟩, 0⟩), ("2.2.2.2", ⟨⟨1, 0⟩, 100⟩)]
      "1.1.1.1" ⟨⟨1, 0⟩, 0⟩ (by decide) rfl).1 (by norm_num),
   (sweep_evicts_stale_keeps_fresh 200
      [("1.1.1.1", ⟨⟨1, 0⟩, 0⟩), ("2.2.2.2", ⟨⟨1, 0⟩, 100⟩)]
      "2.2.2.2" ⟨⟨1, 0⟩, 100⟩ (by decide) rfl).2 (by norm_num)⟩

/-- C8: with limiting enabled, every admission check — admitted or denied —
leaves the client's entry present with its `lastSeen` refreshed to the
current instant, and such an entry survives any sweep executed within the
three-minute threshold of that instant. -/
theorem rateLimit_refreshes_lastSeen_always (cfg : LimiterConfig) (now : ℚ)
    (ip : String) (clients : Clients) (he : cfg.enabled = true) :
    ∃ lim : RateLimiter,
      lookupClient ip (rateLimitStep cfg now ip clients).2
          = some ⟨lim, now⟩ ∧
      ∀ nowSweep : ℚ, nowSweep - now ≤ 3 * 60 →
        lookupClient ip (sweep nowSweep (rateLimitStep cfg now ip clients).2)
          = some ⟨lim, now⟩ := by
  have main : ∃ lim : RateLimiter,
      lookupClient ip (rateLimitStep cfg now ip clients).2 = some ⟨lim, now⟩ := by
    rcases hc : lookupClient ip clients with _ | c
    · refine ⟨(limiterAllow cfg now (newLimiter cfg now)).2, ?_⟩
      simp [rateLimitStep, he, hc, lookupClient]
    · refine ⟨(limiterAllow cfg now c.limiter).2, ?_⟩
      simp only [rateLimitStep, he, if_true, hc]
      exact lookupClient_updateClient_self ip _ clients c hc
  rcases main with ⟨lim, hlook⟩
  refine ⟨lim, hlook, fun nowSweep hwin => ?_⟩
  refine lookupClient_filter_kept ip ⟨lim, now⟩ _ _ hlook ?_
  simp only [decide_eq_true_eq]
  exact not_lt.mpr hwin

/-- C8 witness: a denied request (empty bucket, no elapsed time) still
refreshes `lastSeen` to the request instant, and the entry survives a sweep
100 seconds later. -/
theorem rateLimit_refreshes_lastSeen_witness :
    (rateLimitStep defaultLimiterConfig 5 "10.0.0.1"
        [("10.0.0.1", ⟨⟨0, 5⟩, 1⟩)]).1 = false ∧
    lookupClient "10.0.0.1"
        (sweep 105 (rateLimitStep defaultLimiterConfig 5 "10.0.0.1"
          [("10.0.0.1", ⟨⟨0, 5⟩, 1⟩)]).2)
      = some ⟨⟨0, 5⟩, 5⟩ := by
  have henabled : defaultLimiterConfig.enabled = true := rfl
  have hla : limiterAllow defaultLimiterConfig 5 ⟨0, 5⟩ = (false, ⟨0, 5⟩) := by
    rw [limiterAllow_no_elapse defaultLimiterConfig 5 0 (by norm_num [defaultLimiterConfig])]
    norm_num
  have hlook0 : lookupClient "10.0.0.1"
      [("10.0.0.1", (⟨⟨0, 5⟩, 1⟩ : Client))] = some ⟨⟨0, 5⟩, 1⟩ := by
    simp [lookupClient]
  have hstep : rateLimitStep defaultLimiterConfig 5 "10.0.0.1"
      [("10.0.0.1", ⟨⟨0, 5⟩, 1⟩)]
      = (false, [("10.0.0.1", ⟨⟨0, 5⟩, 5⟩)]) := by
    simp only [rateLimitStep, henabled, if_true, hlook0, hla]
    simp [updateClient]
  constructor
  · rw [hstep]
  · obtain ⟨lim, h1, h2⟩ := rateLimit_refreshes_lastSeen_always
      defaultLimiterConfig 5 "10.0.0.1" [("10.0.0.1", ⟨⟨0, 5⟩, 1⟩)] rfl
    have hconc : lookupClient "10.0.0.1"
        (rateLimitStep defaultLimiterConfig 5 "10.0.0.1"
          [("10.0.0.1", ⟨⟨0, 5⟩, 1⟩)]).2 = some ⟨⟨0, 5⟩, 5⟩ := by
      rw [hstep]
      simp [lookupClient]
    have hlim : (⟨lim, 5⟩ : Client) = ⟨⟨0, 5⟩, 5⟩ :=
      Option.some.inj (h1.symm.trans hconc)
    have := h2 105 (by norm_num)
    rw [hlim] at this
    exact this

/-! ## Theorems: no double-spend under the rateLimit mutex -/

/-- 1 when the thread has recorded a successful admission, else 0. -/
def succOf (t : Thread) : ℕ := if t.result = some true then 1 else 0

/-- Number of successful admissions the two threads have recorded. -/
def nSucc (s : Sys) : ℕ := succOf s.t0 + succOf s.t1

/-- `succOf` counts exactly the threads whose recorded result is success. -/
theorem succOf_eq_one {t : Thread} (h : succOf t = 1) : t.result = some true := by
  by_cases hx : t.result = some true
  · exact hx
  · simp [succOf, hx] at h

/-- The inductive invariant of the two-thread admission experiment started
from a one-token bucket: the shared entry always holds `1 - `(number of
recorded successes) tokens with its bucket clock at `now`; at most one
success is ever recorded; a thread inside the critical section (program
counter 1 to 5) holds the lock; a result is recorded exactly from program
counter 5 on; a thread at the decision step has read the current token
count; and a thread can only have failed if the other has succeeded. -/
def SysInv (now : ℚ) (ip : String) (s : Sys) : Prop :=
  (∃ lsn : ℚ, s.clients = [(ip, ⟨⟨1 - (nSucc s : ℚ), now⟩, lsn⟩)]) ∧
  nSucc s ≤ 1 ∧
  (1 ≤ s.t0.pc → s.t0.pc ≤ 5 → s.lock = some false) ∧
  (1 ≤ s.t1.pc → s.t1.pc ≤ 5 → s.lock = some true) ∧
  (s.t0.result.isSome = true ↔ 5 ≤ s.t0.pc) ∧
  (s.t1.result.isSome = true ↔ 5 ≤ s.t1.pc) ∧
  (s.t0.pc = 4 → s.t0.tokensRead = 1 - (nSucc s : ℚ)) ∧
  (s.t1.pc = 4 → s.t1.tokensRead = 1 - (nSucc s : ℚ)) ∧
  (s.t0.result = some false → s.t1.result = some true) ∧
  (s.t1.result = some false → s.t0.result = some true)

/-- The initial state satisfies the invariant. -/
theorem initSys_inv (now : ℚ) (ip : String) (ls : ℚ) :
    SysInv now ip (initSys ip now ls) := by
  refine ⟨⟨ls, ?_⟩, ?_, ?_, ?_, ?_, ?_, ?_, ?_, ?_, ?_⟩ <;>
    simp [initSys, nSucc, succOf]

/-- Every micro-step preserves the invariant (burst capacity at least 1, so
the cap never hides the single available token). -/
theorem microStep_inv (cfg : LimiterConfig) (now : ℚ) (ip : String)
    (hb : 1 ≤ cfg.burst) (s : Sys) (i : Bool)
    (h : SysInv now ip s) : SysInv now ip (microStep cfg now ip s i) := by
  obtain ⟨⟨lsn, hcl⟩, hns, hl0, hl1, hr0, hr1, ht0, ht1, hf0, hf1⟩ := h
  have hbq : (1 : ℚ) ≤ (cfg.burst : ℚ) := by exact_mod_cast hb
  have hnn : (0 : ℚ) ≤ ((nSucc s : ℕ) : ℚ) := Nat.cast_nonneg _
  have hmin : min ((cfg.burst : ℚ)) (1 - (nSucc s : ℚ)) = 1 - (nSucc s : ℚ) := by
    refine min_eq_right ?_
    linarith
  cases i with
  | false =>
    by_cases hp0 : s.t0.pc = 0
    · rcases hlk : s.lock with _ | j
      · have hstep : microStep cfg now ip s false =
            { lock := some false, clients := s.clients,
              t0 := { s.t0 with pc := 1 }, t1 := s.t1 } := by
          simp [microStep, Sys.thread, Sys.setThread, hp0, hlk]
        rw [hstep]
        refine ⟨⟨lsn, hcl⟩, hns, fun _ _ => rfl, ?_, ?_, hr1, ?_, ht1, hf0, hf1⟩
        · intro ha hb2
          have hx := hl1 ha hb2
          rw [hlk] at hx
          exact Option.noConfusion hx
        · rw [hp0] at hr0
          exact iff_of_false (fun hx => absurd (hr0.mp hx) (by omega))
            (by norm_num)
        · intro hx
          simp at hx
      · have hstep : microStep cfg now ip s false = s := by
          simp [microStep, Sys.thread, Sys.setThread, hp0, hlk]
        rw [hstep]
        exact ⟨⟨lsn, hcl⟩, hns, hl0, hl1, hr0, hr1, ht0, ht1, hf0, hf1⟩
    · by_cases hp1 : s.t0.pc = 1
      · have hlock := hl0 (by omega) (by omega)
        have hstep : microStep cfg now ip s false =
            { lock := s.lock, clients := s.clients,
              t0 := { s.t0 with pc := 2 }, t1 := s.t1 } := by
          simp [microStep, Sys.thread, Sys.setThread, hp0, hp1, hcl, lookupClient]
        rw [hstep]
        refine ⟨⟨lsn, hcl⟩, hns, fun _ _ => hlock, ?_, ?_, hr1, ?_, ht1, hf0, hf1⟩
        · intro ha hb2
          have hx := hl1 ha hb2
          rw [hlock] at hx
          exact absurd (Option.some.inj hx) (by simp)
        · rw [hp1] at hr0
          exact iff_of_false (fun hx => absurd (hr0.mp hx) (by omega))
            (by norm_num)
        · intro hx
          simp at hx
      · by_cases hp2 : s.t0.pc = 2
        · have hlock := hl0 (by omega) (by omega)
          have hstep : microStep cfg now ip s false =
              { lock := s.lock,
                clients := [(ip, ⟨⟨1 - (nSucc s : ℚ), now⟩, now⟩)],
                t0 := { s.t0 with pc := 3 }, t1 := s.t1 } := by
            simp [microStep, Sys.thread, Sys.setThread, hp0, hp1, hp2, hcl,
              lookupClient, updateClient]
          rw [hstep]
          refine ⟨⟨now, rfl⟩, hns, fun _ _ => hlock, ?_, ?_, hr1, ?_, ht1, hf0, hf1⟩
          · intro ha hb2
            have hx := hl1 ha hb2
            rw [hlock] at hx
            exact absurd (Option.some.inj hx) (by simp)
          · rw [hp2] at hr0
            exact iff_of_false (fun hx => absurd (hr0.mp hx) (by omega))
              (by norm_num)
          · intro hx
            simp at hx
        · by_cases hp3 : s.t0.pc = 3
          · have hlock := hl0 (by omega) (by omega)
            have hstep : microStep cfg now ip s false =
                { lock := s.lock, clients := s.clients,
                  t0 := { s.t0 with pc := 4, tokensRead := 1 - (nSucc s : ℚ) },
                  t1 := s.t1 } := by
              simp [microStep, Sys.thread, Sys.setThread, hp0, hp1, hp2, hp3,
                hcl, lookupClient, hmin]
            rw [hstep]
            refine ⟨⟨lsn, hcl⟩, hns, fun _ _ => hlock, ?_, ?_, hr1, fun _ => rfl,
              ht1, hf0, hf1⟩
            · intro ha hb2
              have hx := hl1 ha hb2
              rw [hlock] at hx
              exact absurd (Option.some.inj hx) (by simp)
            · rw [hp3] at hr0
              exact iff_of_false (fun hx => absurd (hr0.mp hx) (by omega))
                (by norm_num)
          · by_cases hp4 : s.t0.pc = 4
            · have hlock := hl0 (by omega) (by omega)
              have httr := ht0 hp4
              have hres0 : s.t0.result = none := by
                rcases hx : s.t0.result with _ | b
                · rfl
                · have hy : s.t0.result.isSome = true := by rw [hx]; rfl
                  rw [hr0] at hy
                  omega
              have hvac1 : ¬ s.t1.pc = 4 := by
                intro hx
                have ha := hl1 (by omega) (by omega)
                rw [hlock] at ha
                exact absurd (Option.some.inj ha) (by simp)
              by_cases hge : 1 ≤ s.t0.tokensRead
              · have hns0 : nSucc s = 0 := by
                  rw [httr] at hge
                  have hq : ((nSucc s : ℕ) : ℚ) ≤ 0 := by linarith
                  exact_mod_cast le_antisymm (by exact_mod_cast hq) (Nat.zero_le _)
                have hne1 : ¬ s.t1.result = some true := by
                  intro hx
                  have h01 : succOf s.t0 + succOf s.t1 = nSucc s := rfl
                  have h02 : succOf s.t1 = 1 := by simp [succOf, hx]
                  omega
                have hstep : microStep cfg now ip s false =
                    { lock := s.lock,
                      clients := [(ip, ⟨⟨s.t0.tokensRead - 1, now⟩, lsn⟩)],
                      t0 := { s.t0 with pc := 5, result := some true },
                      t1 := s.t1 } := by
                  simp [microStep, Sys.thread, Sys.setThread, hp0, hp1, hp2, hp3,
                    hp4, hge, hcl, lookupClient, updateClient]
                rw [hstep]
                refine ⟨⟨lsn, ?_⟩, ?_, fun _ _ => hlock, ?_, by simp, hr1, ?_, ?_,
                  ?_, fun _ => rfl⟩
                · simp [nSucc, succOf, hne1, hres0, httr, hns0]
                · simp [nSucc, succOf, hne1]
                · intro ha hb2
                  have hx := hl1 ha hb2
                  rw [hlock] at hx
                  exact absurd (Option.some.inj hx) (by simp)
                · intro hx
                  simp at hx
                · intro hx
                  exact absurd hx hvac1
                · intro hx
                  simp at hx
              · have hns1 : nSucc s = 1 := by
                  rw [httr] at hge
                  push_neg at hge
                  have hq : (0 : ℚ) < ((nSucc s : ℕ) : ℚ) := by linarith
                  have hq2 : 0 < nSucc s := by exact_mod_cast hq
                  omega
                have hrt1 : s.t1.result = some true := by
                  refine succOf_eq_one ?_
                  have h01 : succOf s.t0 + succOf s.t1 = nSucc s := rfl
                  have h02 : succOf s.t0 = 0 := by simp [succOf, hres0]
                  omega
                have hstep : microStep cfg now ip s false =
                    { lock := s.lock, clients := s.clients,
                      t0 := { s.t0 with pc := 5, result := some false },
                      t1 := s.t1 } := by
                  simp [microStep, Sys.thread, Sys.setThread, hp0, hp1, hp2, hp3,
                    hp4, hge]
                rw [hstep]
                refine ⟨⟨lsn, ?_⟩, ?_, fun _ _ => hlock, ?_, by simp, hr1, ?_, ?_,
                  fun _ => hrt1, ?_⟩
                · simp [hcl, nSucc, succOf, hres0, hrt1]
                · simp [nSucc, succOf, hrt1]
                · intro ha hb2
                  have hx := hl1 ha hb2
                  rw [hlock] at hx
                  exact absurd (Option.some.inj hx) (by simp)
                · intro hx
                  simp at hx
                · intro hx
                  exact absurd hx hvac1
                · intro hx
                  exact absurd (hx.symm.trans hrt1) (by simp)
            · by_cases hp5 : s.t0.pc = 5
              · have hstep : microStep cfg now ip s false =
                    { lock := none, clients := s.clients,
                      t0 := { s.t0 with pc := 6 }, t1 := s.t1 } := by
                  simp [microStep, Sys.thread, Sys.setThread, hp0, hp1, hp2, hp3,
                    hp4, hp5]
                rw [hstep]
                have hlock := hl0 (by omega) (by omega)
                refine ⟨⟨lsn, hcl⟩, hns, ?_, ?_, ?_, hr1, ?_, ht1, hf0, hf1⟩
                · intro _ hx
                  simp at hx
                · intro ha hb2
                  have hx := hl1 ha hb2
                  rw [hlock] at hx
                  exact absurd (Option.some.inj hx) (by simp)
                · have hy : s.t0.result.isSome = true := hr0.mpr (by omega)
                  exact iff_of_true hy (by norm_num)
                · intro hx
                  simp at hx
              · have hstep : microStep cfg now ip s false = s := by
                  simp [microStep, Sys.thread, Sys.setThread, hp0, hp1, hp2, hp3,
                    hp4, hp5]
                rw [hstep]
                exact ⟨⟨lsn, hcl⟩, hns, hl0, hl1, hr0, hr1, ht0, ht1, hf0, hf1⟩
  | true =>
    by_cases hp0 : s.t1.pc = 0
    · rcases hlk : s.lock with _ | j
      · have hstep : microStep cfg now ip s true =
            { lock := some true, clients := s.clients,
              t0 := s.t0, t1 := { s.t1 with pc := 1 } } := by
          simp [microStep, Sys.thread, Sys.setThread, hp0, hlk]
        rw [hstep]
        refine ⟨⟨lsn, hcl⟩, hns, ?_, fun _ _ => rfl, hr0, ?_, ht0, ?_, hf0, hf1⟩
        · intro ha hb2
          have hx := hl0 ha hb2
          rw [hlk] at hx
          exact Option.noConfusion hx
        · rw [hp0] at hr1
          exact iff_of_false (fun hx => absurd (hr1.mp hx) (by omega))
            (by norm_num)
        · intro hx
          simp at hx
      · have hstep : microStep cfg now ip s true = s := by
          simp [microStep, Sys.thread, Sys.setThread, hp0, hlk]
        rw [hstep]
        exact ⟨⟨lsn, hcl⟩, hns, hl0, hl1, hr0, hr1, ht0, ht1, hf0, hf1⟩
    · by_cases hp1 : s.t1.pc = 1
      · have hlock := hl1 (by omega) (by omega)
        have hstep : microStep cfg now ip s true =
            { lock := s.lock, clients := s.clients,
              t0 := s.t0, t1 := { s.t1 with pc := 2 } } := by
          simp [microStep, Sys.thread, Sys.setThread, hp0, hp1, hcl, lookupClient]
        rw [hstep]
        refine ⟨⟨lsn, hcl⟩, hns, ?_, fun _ _ => hlock, hr0, ?_, ht0, ?_, hf0, hf1⟩
        · intro ha hb2
          have hx := hl0 ha hb2
          rw [hlock] at hx
          exact absurd (Option.some.inj hx) (by simp)
        · rw [hp1] at hr1
          exact iff_of_false (fun hx => absurd (hr1.mp hx) (by omega))
            (by norm_num)
        · intro hx
          simp at hx
      · by_cases hp2 : s.t1.pc = 2
        · have hlock := hl1 (by omega) (by omega)
          have hstep : microStep cfg now ip s true =
              { lock := s.lock,
                clients := [(ip, ⟨⟨1 - (nSucc s : ℚ), now⟩, now⟩)],
                t0 := s.t0, t1 := { s.t1 with pc := 3 } } := by
            simp [microStep, Sys.thread, Sys.setThread, hp0, hp1, hp2, hcl,
              lookupClient, updateClient]
          rw [hstep]
          refine ⟨⟨now, rfl⟩, hns, ?_, fun _ _ => hlock, hr0, ?_, ht0, ?_, hf0, hf1⟩
          · intro ha hb2
            have hx := hl0 ha hb2
            rw [hlock] at hx
            exact absurd (Option.some.inj hx) (by simp)
          · rw [hp2] at hr1
            exact iff_of_false (fun hx => absurd (hr1.mp hx) (by omega))
              (by norm_num)
          · intro hx
            simp at hx
        · by_cases hp3 : s.t1.pc = 3
          · have hlock := hl1 (by omega) (by omega)
            have hstep : microStep cfg now ip s true =
                { lock := s.lock, clients := s.clients,
                  t0 := s.t0,
                  t1 := { s.t1 with pc := 4, tokensRead := 1 - (nSucc s : ℚ) } } := by
              simp [microStep, Sys.thread, Sys.setThread, hp0, hp1, hp2, hp3,
                hcl, lookupClient, hmin]
            rw [hstep]
            refine ⟨⟨lsn, hcl⟩, hns, ?_, fun _ _ => hlock, hr0, ?_, ht0,
              fun _ => rfl, hf0, hf1⟩
            · intro ha hb2
              have hx := hl0 ha hb2
              rw [hlock] at hx
              exact absurd (Option.some.inj hx) (by simp)
            · rw [hp3] at hr1
              exact iff_of_false (fun hx => absurd (hr1.mp hx) (by omega))
                (by norm_num)
          · by_cases hp4 : s.t1.pc = 4
            · have hlock := hl1 (by omega) (by omega)
              have httr := ht1 hp4
              have hres1 : s.t1.result = none := by
                rcases hx : s.t1.result with _ | b
                · rfl
                · have hy : s.t1.result.isSome = true := by rw [hx]; rfl
                  rw [hr1] at hy
                  omega
              have hvac0 : ¬ s.t0.pc = 4 := by
                intro hx
                have ha := hl0 (by omega) (by omega)
                rw [hlock] at ha
                exact absurd (Option.some.inj ha) (by simp)
              by_cases hge : 1 ≤ s.t1.tokensRead
              · have hns0 : nSucc s = 0 := by
                  rw [httr] at hge
                  have hq : ((nSucc s : ℕ) : ℚ) ≤ 0 := by linarith
                  exact_mod_cast le_antisymm (by exact_mod_cast hq) (Nat.zero_le _)
                have hne0 : ¬ s.t0.result = some true := by
                  intro hx
                  have h01 : succOf s.t0 + succOf s.t1 = nSucc s := rfl
                  have h02 : succOf s.t0 = 1 := by simp [succOf, hx]
                  omega
                have hstep : microStep cfg now ip s true =
                    { lock := s.lock,
                      clients := [(ip, ⟨⟨s.t1.tokensRead - 1, now⟩, lsn⟩)],
                      t0 := s.t0,
                      t1 := { s.t1 with pc := 5, result := some true } } := by
                  simp [microStep, Sys.thread, Sys.setThread, hp0, hp1, hp2, hp3,
                    hp4, hge, hcl, lookupClient, updateClient]
                rw [hstep]
                refine ⟨⟨lsn, ?_⟩, ?_, ?_, fun _ _ => hlock, hr0, by simp, ?_, ?_,
                  fun _ => rfl, ?_⟩
                · simp [nSucc, succOf, hne0, hres1, httr, hns0]
                · simp [nSucc, succOf, hne0]
                · intro ha hb2
                  have hx := hl0 ha hb2
                  rw [hlock] at hx
                  exact absurd (Option.some.inj hx) (by simp)
                · intro hx
                  exact absurd hx hvac0
                · intro hx
                  simp at hx
                · intro hx
                  simp at hx
              · have hns1 : nSucc s = 1 := by
                  rw [httr] at hge
                  push_neg at hge
                  have hq : (0 : ℚ) < ((nSucc s : ℕ) : ℚ) := by linarith
                  have hq2 : 0 < nSucc s := by exact_mod_cast hq
                  omega
                have hrt0 : s.t0.result = some true := by
                  refine succOf_eq_one ?_
                  have h01 : succOf s.t0 + succOf s.t1 = nSucc s := rfl
                  have h02 : succOf s.t1 = 0 := by simp [succOf, hres1]
                  omega
                have hstep : microStep cfg now ip s true =
                    { lock := s.lock, clients := s.clients,
                      t0 := s.t0,
                      t1 := { s.t1 with pc := 5, result := some false } } := by
                  simp [microStep, Sys.thread, Sys.setThread, hp0, hp1, hp2, hp3,
                    hp4, hge]
                rw [hstep]
                refine ⟨⟨lsn, ?_⟩, ?_, ?_, fun _ _ => hlock, hr0, by simp, ?_, ?_,
                  ?_, fun _ => hrt0⟩
                · simp [hcl, nSucc, succOf, hres1, hrt0]
                · simp [nSucc, succOf, hrt0]
                · intro ha hb2
                  have hx := hl0 ha hb2
                  rw [hlock] at hx
                  exact absurd (Option.some.inj hx) (by simp)
                · intro hx
                  exact absurd hx hvac0
                · intro hx
                  simp at hx
                · intro hx
                  exact absurd (hx.symm.trans hrt0) (by simp)
            · by_cases hp5 : s.t1.pc = 5
              · have hstep : microStep cfg now ip s true =
                    { lock := none, clients := s.clients,
                      t0 := s.t0, t1 := { s.t1 with pc := 6 } } := by
                  simp [microStep, Sys.thread, Sys.setThread, hp0, hp1, hp2, hp3,
                    hp4, hp5]
                rw [hstep]
                have hlock := hl1 (by omega) (by omega)
                refine ⟨⟨lsn, hcl⟩, hns, ?_, ?_, hr0, ?_, ht0, ?_, hf0, hf1⟩
                · intro ha hb2
                  have hx := hl0 ha hb2
                  rw [hlock] at hx
                  exact absurd (Option.some.inj hx) (by simp)
                · intro _ hx
                  simp at hx
                · have hy : s.t1.result.isSome = true := hr1.mpr (by omega)
                  exact iff_of_true hy (by norm_num)
                · intro hx
                  simp at hx
              · have hstep : microStep cfg now ip s true = s := by
                  simp [microStep, Sys.thread, Sys.setThread, hp0, hp1, hp2, hp3,
                    hp4, hp5]
                rw [hstep]
                exact ⟨⟨lsn, hcl⟩, hns, hl0, hl1, hr0, hr1, ht0, ht1, hf0, hf1⟩

/-- Running any schedule preserves the invariant. -/
theorem runSched_inv (cfg : LimiterConfig) (now : ℚ) (ip : String)
    (hb : 1 ≤ cfg.burst) :
    ∀ (sched : List Bool) (s : Sys), SysInv now ip s →
      SysInv now ip (runSched cfg now ip sched s) := by
  intro sched
  induction sched with
  | nil => intro s h; exact h
  | cons i rest ih =>
    intro s h
    exact ih _ (microStep_inv cfg now ip hb s i h)

/-- C2: for every schedule of interleaved micro-steps of two concurrent
admission checks for the same key, started from a registry whose entry for
that key holds exactly one token, once both checks have completed exactly
one of them was admitted and the other was denied — the mutex makes the
lookup, `lastSeen` refresh and token consumption atomic per key, so the
single remaining token cannot be spent twice. -/
theorem rateLimit_mutex_no_double_spend (cfg : LimiterConfig) (now ls : ℚ)
    (ip : String) (sched : List Bool) (hb : 1 ≤ cfg.burst)
    (h0 : (runSched cfg now ip sched (initSys ip now ls)).t0.pc = 6)
    (h1 : (runSched cfg now ip sched (initSys ip now ls)).t1.pc = 6) :
    ((runSched cfg now ip sched (initSys ip now ls)).t0.result = some true ∧
     (runSched cfg now ip sched (initSys ip now ls)).t1.result = some false) ∨
    ((runSched cfg now ip sched (initSys ip now ls)).t0.result = some false ∧
     (runSched cfg now ip sched (initSys ip now ls)).t1.result = some true) := by
  have hinv := runSched_inv cfg now ip hb sched _ (initSys_inv now ip ls)
  obtain ⟨-, hns, -, -, hr0, hr1, -, -, hf0, hf1⟩ := hinv
  have hs0 : (runSched cfg now ip sched (initSys ip now ls)).t0.result.isSome
      = true := hr0.mpr (by omega)
  have hs1 : (runSched cfg now ip sched (initSys ip now ls)).t1.result.isSome
      = true := hr1.mpr (by omega)
  rcases hx0 : (runSched cfg now ip sched (initSys ip now ls)).t0.result
    with _ | b0
  · rw [hx0] at hs0
    simp at hs0
  rcases hx1 : (runSched cfg now ip sched (initSys ip now ls)).t1.result
    with _ | b1
  · rw [hx1] at hs1
    simp at hs1
  cases b0 <;> cases b1
  · have hy := hf0 hx0
    rw [hx1] at hy
    simp at hy
  · exact Or.inr ⟨rfl, rfl⟩
  · exact Or.inl ⟨rfl, rfl⟩
  · exfalso
    have he2 : nSucc (runSched cfg now ip sched (initSys ip now ls)) = 2 := by
      simp [nSucc, succOf, hx0, hx1]
    omega

/-- C2 witness: the schedule that lets thread 0 run its whole admission
check and then thread 1, from a one-token bucket under the default
configuration: thread 0 is admitted, thread 1 denied. -/
theorem rateLimit_mutex_no_double_spend_witness :
    ((runSched defaultLimiterConfig 0 "10.0.0.1"
        [false, false, false, false, false, false,
         true, true, true, true, true, true]
        (initSys "10.0.0.1" 0 0)).t0.result = some true ∧
     (runSched defaultLimiterConfig 0 "10.0.0.1"
        [false, false, false, false, false, false,
         true, true, true, true, true, true]
        (initSys "10.0.0.1" 0 0)).t1.result = some false) ∨
    ((runSched defaultLimiterConfig 0 "10.0.0.1"
        [false, false, false, false, false, false,
         true, true, true, true, true, true]
        (initSys "10.0.0.1" 0 0)).t0.result = some false ∧
     (runSched defaultLimiterConfig 0 "10.0.0.1"
        [false, false, false, false, false, false,
         true, true, true, true, true, true]
        (initSys "10.0.0.1" 0 0)).t1.result = some true) :=
  rateLimit_mutex_no_double_spend defaultLimiterConfig 0 0 "10.0.0.1"
    [false, false, false, false, false, false,
     true, true, true, true, true, true]
    (by decide)
    (by norm_num [runSched, microStep, Sys.thread, Sys.setThread, lookupClient,
      updateClient, initSys, defaultLimiterConfig, newLimiter, min_def, max_def])
    (by norm_num [runSched, microStep, Sys.thread, Sys.setThread, lookupClient,
      updateClient, initSys, defaultLimiterConfig, newLimiter, min_def, max_def])

end Greenlight
